import Mathlib

/-! # go-osmand-tracker: ingestion, retrieval and the latest-entry cache

A shallow embedding of `internal/server/server.go`: the `/retrieve` and
`/submit` handlers registered by `Listen`, the package variable
`lastDatabaseAddition` and the seeding of that variable at startup.

* Go strings are Lean strings; the handlers only compare them with `""`,
  take their length against 1 and hand them to `strconv`.
* `uint16` / `uint64` values are natural numbers with explicit `% 2^16`,
  `% 2^64`.
* `float64` values are their IEEE-754 binary64 bit patterns.
* `log.Fatal` ends the process: a run records it in `Run.fatal`.
* Logging (`config.Debug`), response headers, the static file route and the
  TLS set-up do not touch the cache or the store and are left out.
-/

namespace Server

/-! ## strconv -/

/-- The two error kinds of `strconv.NumError` that `ParseUint` and
`ParseFloat` report for a valid base and bit size. -/
inductive NumError
  | ErrSyntax
  | ErrRange
deriving DecidableEq, Repr

/-- The helper `lower` of strconv: `c | ('x' - 'X')`. -/
def lower (c : Nat) : Nat := c ||| 0x20

/-- The digit value strconv.ParseUint assigns to one byte of its input, `none`
for the `default` case of its switch. A character outside ASCII is encoded
by bytes `≥ 0x80`, each of which falls in the `default` case. The case
`c == '_' && base0` does not arise: both call sites pass base 10. -/
def digitVal (c : Char) : Option Nat :=
  if 48 ≤ c.toNat ∧ c.toNat ≤ 57 then some (c.toNat - 48)
  else if c.toNat < 128 ∧ 97 ≤ lower c.toNat ∧ lower c.toNat ≤ 122 then
    some (lower c.toNat - 97 + 10)
  else none

/-- The digit loop of strconv.ParseUint for base 10, `n` being the `uint64`
accumulator: `cutoff = maxUint64/10 + 1`, a digit `≥ base` is a syntax error,
`n ≥ cutoff` or `n1 < n || n1 > maxVal` a range error that returns `maxVal`. -/
def parseUintLoop (maxVal : Nat) (n : Nat) : List Char → Nat × Option NumError
  | [] => (n, none)
  | c :: cs =>
    match digitVal c with
    | none => (0, some .ErrSyntax)
    | some d =>
      if d ≥ 10 then (0, some .ErrSyntax)
      else if n ≥ (2 ^ 64 - 1) / 10 + 1 then (maxVal, some .ErrRange)
      else
        let n10 := (n * 10) % 2 ^ 64
        let n1 := (n10 + d) % 2 ^ 64
        if n1 < n10 ∨ n1 > maxVal then (maxVal, some .ErrRange)
        else parseUintLoop maxVal n1 cs

/-- The call `strconv.ParseUint(s, 10, bitSize)` with `bitSize` 16 or 64: the
returned value and the error (`none` for `nil`). -/
def ParseUint (s : String) (bitSize : Nat) : Nat × Option NumError :=
  if s = "" then (0, some .ErrSyntax)
  else parseUintLoop (2 ^ bitSize - 1) 0 s.data

/-- A `float64`, given by its IEEE-754 binary64 bit pattern. The zero value of
the Go type is the pattern 0. -/
structure Float64 where
  bits : Nat
deriving DecidableEq, Repr

/-- The biased exponent field of the bit pattern. -/
def Float64.exponent (f : Float64) : Nat := (f.bits / 2 ^ 52) % 2 ^ 11

/-- The fraction field of the bit pattern. -/
def Float64.fraction (f : Float64) : Nat := f.bits % 2 ^ 52

/-- The check `math.IsInf(f, 0)`. -/
def Float64.IsInf (f : Float64) : Bool := f.exponent = 2047 && f.fraction = 0

/-- The check `math.IsNaN(f)`. -/
def Float64.IsNaN (f : Float64) : Bool := f.exponent = 2047 && f.fraction ≠ 0

/-- The value `math.Inf(sign)`: `+Inf`, or `-Inf` when `neg`. -/
def Float64.Inf (neg : Bool) : Float64 :=
  if neg then ⟨0xFFF0000000000000⟩ else ⟨0x7FF0000000000000⟩

/-- What the float scanner of strconv finds in a nonempty text: a value, a
malformed text, or a well-formed text too large for a `float64`. The scanner
itself (decimal and hexadecimal conversion with rounding) is a parameter of
the embedding. -/
inductive Scan
  | ok (f : Float64)
  | malformed
  | overflow (neg : Bool)
deriving DecidableEq, Repr

/-- The call `strconv.ParseFloat(s, 64)`: value and error. The empty text is
rejected at once with `ErrSyntax`; a malformed text returns 0 with
`ErrSyntax`, an overflowing one `±Inf` with `ErrRange`. -/
def ParseFloat (atof64 : String → Scan) (s : String) : Float64 × Option NumError :=
  if s = "" then (⟨0⟩, some .ErrSyntax)
  else
    match atof64 s with
    | .ok f => (f, none)
    | .malformed => (⟨0⟩, some .ErrSyntax)
    | .overflow neg => (Float64.Inf neg, some .ErrRange)

/-! ## net/url -/

/-- The type `url.Values`: the values of each key of the query, in order. -/
abbrev Values := String → List String

/-- The method `Values.Get`: the first value of the key, `""` when there is
none. -/
def Values.Get (v : Values) (key : String) : String :=
  match v key with
  | [] => ""
  | x :: _ => x

/-! ## Data model -/

/-- Modelled from the spec: the declaration of `types.LocationUpdate` (package
`internal/types` is not among the sources); the fields are those server.go
assigns in lines 113-120, with the types the spec's data model gives. -/
structure LocationUpdate where
  Latitude : Float64
  Longitude : Float64
  Timestamp : Nat
  Hdop : Float64
  Altitude : Float64
  Speed : Float64
deriving DecidableEq, Repr

/-- Modelled from the spec: the declaration of `types.Entry` (package
`internal/types` is not among the sources); the fields are those server.go
assigns in lines 129-132. -/
structure Entry where
  Timestamp : Nat
  Data : LocationUpdate
deriving DecidableEq, Repr

/-- The zero value of `types.Entry`, which a package-level variable holds at
process start. -/
def Entry.zero : Entry := ⟨0, ⟨⟨0⟩, ⟨0⟩, 0, ⟨0⟩, ⟨0⟩, ⟨0⟩⟩⟩

/-! ## encoding/json -/

/-- Whether encoding/json accepts the float: it reports an
`UnsupportedValueError` for `±Inf` and `NaN`. -/
def Float64.marshalable (f : Float64) : Bool := !(f.IsInf || f.IsNaN)

/-- Whether `json.Marshal` succeeds on a `LocationUpdate`. -/
def LocationUpdate.marshalable (u : LocationUpdate) : Bool :=
  u.Latitude.marshalable && u.Longitude.marshalable && u.Hdop.marshalable &&
    u.Altitude.marshalable && u.Speed.marshalable

/-- Whether `json.Marshal` succeeds on an `Entry`. -/
def Entry.marshalable (e : Entry) : Bool := e.Data.marshalable

/-- A marshalled response body: `null` for a nil slice, else the array of the
entries in order. -/
inductive JSON
  | null
  | array (items : List Entry)
deriving DecidableEq, Repr

/-- The call `json.Marshal` on a slice or array of entries (`none` as argument
is the nil slice); the result is `none` when an element cannot be encoded. -/
def Marshal : Option (List Entry) → Option JSON
  | none => some .null
  | some es => if es.all Entry.marshalable then some (.array es) else none

/-! ## The entry store -/

/-- Modelled from the spec: the storm database behind `db` (neither the
library nor the struct tags of `types.Entry` are among the sources). The Entry
Store is an append-only collection of entries; `records` lists them in the
order they were appended. -/
structure DB where
  records : List Entry
deriving DecidableEq, Repr

/-- The order of the store's key: ascending timestamp. -/
def Entry.keyLE (a b : Entry) : Prop := a.Timestamp ≤ b.Timestamp

instance : DecidableRel Entry.keyLE :=
  fun a b => inferInstanceAs (Decidable (a.Timestamp ≤ b.Timestamp))

instance : IsTotal Entry Entry.keyLE := ⟨fun a b => Nat.le_total a.Timestamp b.Timestamp⟩

instance : IsTrans Entry Entry.keyLE := ⟨fun _ _ _ h₁ h₂ => Nat.le_trans h₁ h₂⟩

/-- Modelled from the spec: `Append(entry) -> error` of the Entry Store, the
call `db.Save(&entry)`. It persists one more entry and changes no other;
`ioErr` says whether the storage fails, in which case nothing is persisted
and the result is `none`. -/
def DB.Save (db : DB) (ioErr : Bool) (e : Entry) : Option DB :=
  if ioErr then none else some ⟨db.records ++ [e]⟩

/-- Modelled from the spec: `ReadRecent(limit)` of the Entry Store, the call
`db.All(&to, storm.Limit(limit), storm.Reverse())`. The entries are read in
key order (ascending timestamp, entries of equal timestamp in the order this
model appended them, an order the spec leaves open), reversed when `reverse`,
and cut to `limit` entries, with `limit = 0` standing for no limit. An empty
store gives the empty sequence; `ioErr` says whether the read fails, in which
case the result is `none`. -/
def DB.All (db : DB) (ioErr : Bool) (limit : Nat) (reverse : Bool) : Option (List Entry) :=
  if ioErr then none
  else
    let asc := db.records.insertionSort Entry.keyLE
    let ordered := if reverse then asc.reverse else asc
    some (if limit = 0 then ordered else ordered.take limit)

/-- A call made on `db`. -/
inductive DBCall
  | Save (e : Entry)
  | All (limit : Nat) (reverse : Bool)
deriving DecidableEq, Repr

/-! ## The server -/

/-- The state the handlers share: the database and the package variable
`lastDatabaseAddition`, an array of length 1 given by its only element. -/
structure State where
  db : DB
  lastDatabaseAddition : Entry
deriving DecidableEq, Repr

/-- One execution of a handler or of the startup code: the state it leaves,
the calls it made on `db`, the body it wrote, and whether it ended in
`log.Fatal`, which exits the process. -/
structure Run where
  state : State
  calls : List DBCall
  body : Option JSON
  fatal : Bool
deriving DecidableEq, Repr

/-- Lines 57-68: the `uint16` variable `cnt` of the `/retrieve` handler. It
starts at 1 and is replaced by the parsed value only when the text has length
`≥ 1` and `strconv.ParseUint(text, 10, 16)` returns no error. -/
def resolveCount (query : Values) : Nat :=
  if (query.Get "count").length ≥ 1 then
    match ParseUint (query.Get "count") 16 with
    | (_, some _) => 1
    | (parsedCountValue, none) => parsedCountValue % 2 ^ 16
  else 1

/-- Lines 51-98: the `/retrieve` handler. The error `db.All` returns is
dropped and `entries` stays nil on it; a failing `json.Marshal` is fatal. -/
def retrieveHandler (s : State) (query : Values) (ioErr : Bool) : Run :=
  let cnt := resolveCount query
  if cnt > 1 then
    let entries := s.db.All ioErr cnt true
    match Marshal entries with
    | none => ⟨s, [.All cnt true], none, true⟩
    | some res => ⟨s, [.All cnt true], some res, false⟩
  else
    match Marshal (some [s.lastDatabaseAddition]) with
    | none => ⟨s, [], none, true⟩
    | some res => ⟨s, [], some res, false⟩

/-- Lines 106-120: the `LocationUpdate` built from the query, every parse
error being discarded and the returned value used as it is. -/
def buildUpdate (atof64 : String → Scan) (query : Values) : LocationUpdate :=
  { Latitude := (ParseFloat atof64 (query.Get "lat")).1
    Longitude := (ParseFloat atof64 (query.Get "lon")).1
    Timestamp := (ParseUint (query.Get "timestamp") 64).1
    Hdop := (ParseFloat atof64 (query.Get "hdop")).1
    Altitude := (ParseFloat atof64 (query.Get "altitude")).1
    Speed := (ParseFloat atof64 (query.Get "speed")).1 }

/-- Lines 129-132: the `Entry` built from the query. -/
def buildEntry (atof64 : String → Scan) (query : Values) : Entry :=
  { Timestamp := (buildUpdate atof64 query).Timestamp
    Data := buildUpdate atof64 query }

/-- Lines 100-139: the `/submit` handler. A failing `json.Marshal` of the
update and a failing `db.Save` are fatal; the cache is assigned after the save
returned without error. -/
def submitHandler (atof64 : String → Scan) (s : State) (query : Values) (ioErr : Bool) : Run :=
  let locationUpdate := buildUpdate atof64 query
  if !locationUpdate.marshalable then ⟨s, [], none, true⟩
  else
    let entry : Entry := ⟨locationUpdate.Timestamp, locationUpdate⟩
    match s.db.Save ioErr entry with
    | none => ⟨s, [.Save entry], none, true⟩
    | some db => ⟨⟨db, entry⟩, [.Save entry], none, false⟩

/-- The kind of variable a read is told to fill. -/
inductive Target
  | slice
  | array
deriving DecidableEq, Repr

/-- The method `All` of storm on a given target (the library is not among the
sources): it fills a slice, and for a target that is not a pointer to a slice
it returns the error `ErrSlicePtrNeeded` without reading and without writing
the target. On a slice it is `DB.All`. -/
def DB.AllTo (db : DB) (ioErr : Bool) (target : Target) (limit : Nat) (reverse : Bool) :
    Option (List Entry) :=
  match target with
  | .slice => db.All ioErr limit reverse
  | .array => none

/-- Lines 145-149 of `Listen`: the seeding of `lastDatabaseAddition`, which
holds the zero value at process start. The read is given a pointer to the
array `[1]types.Entry` of line 21, and the value `db.All` returns is not bound
to anything: the variable is written only by a read that returns entries, and
keeps its value otherwise. The only fatal exit is a failing `json.Marshal` of
the variable. A run that is not fatal goes on to serve requests from
`state`. -/
def Listen (db : DB) (ioErr : Bool) : Run :=
  let slot : Entry :=
    match db.AllTo ioErr .array 1 true with
    | some (e :: _) => e
    | _ => Entry.zero
  match Marshal (some [slot]) with
  | none => ⟨⟨db, slot⟩, [.All 1 true], none, true⟩
  | some _ => ⟨⟨db, slot⟩, [.All 1 true], none, false⟩

/-- A sequence of `/submit` requests whose storage does not fail, from state
`s`: the state after the last one, `none` when one of them was fatal. -/
def ingestAll (atof64 : String → Scan) (s : State) : List Values → Option State
  | [] => some s
  | q :: qs =>
    let r := submitHandler atof64 s q false
    if r.fatal then none else ingestAll atof64 r.state qs

/-- The states of a serving process: the state `Listen` leaves on the store
`db₀` when it is not fatal, and every state a handler leaves without being
fatal. `seedErr` and `ioErr` say whether the storage fails in that call. -/
inductive Reachable (atof64 : String → Scan) (db₀ : DB) (seedErr : Bool) : State → Prop
  | boot : (Listen db₀ seedErr).fatal = false →
      Reachable atof64 db₀ seedErr (Listen db₀ seedErr).state
  | retrieve (s : State) (query : Values) (ioErr : Bool) :
      Reachable atof64 db₀ seedErr s → (retrieveHandler s query ioErr).fatal = false →
      Reachable atof64 db₀ seedErr (retrieveHandler s query ioErr).state
  | submit (s : State) (query : Values) (ioErr : Bool) :
      Reachable atof64 db₀ seedErr s → (submitHandler atof64 s query ioErr).fatal = false →
      Reachable atof64 db₀ seedErr (submitHandler atof64 s query ioErr).state

/-! ## The words of the specification -/

/-- The value of a text as an unsigned decimal number, continuing from `acc`:
`none` when a character is not one of `0` to `9`. -/
def decimalValueFrom (acc : Nat) : List Char → Option Nat
  | [] => some acc
  | c :: cs =>
    if 48 ≤ c.toNat ∧ c.toNat ≤ 57 then decimalValueFrom (acc * 10 + (c.toNat - 48)) cs
    else none

/-- The unsigned decimal number a text denotes: `none` for the empty text and
for a text with a character that is not a decimal digit. -/
def decimalValue (s : String) : Option Nat :=
  if s = "" then none else decimalValueFrom 0 s.data

/-- A query whose only key is `key`, with the single value `text`. -/
def single (key text : String) : Values := fun k => if k = key then [text] else []

/-- A query with a `timestamp` value and a `speed` value and no other key. -/
def tsSpeed (ts speed : String) : Values :=
  fun k => if k = "timestamp" then [ts] else if k = "speed" then [speed] else []

/-- The store's entries in descending key order, as `storm.Reverse()` reads
them. -/
def DB.descending (db : DB) : List Entry := (db.records.insertionSort Entry.keyLE).reverse

/-- The entry `/submit` builds from a query whose only value is the decimal
timestamp `ts`. -/
def sample (ts : Nat) : Entry := ⟨ts, ⟨⟨0⟩, ⟨0⟩, ts, ⟨0⟩, ⟨0⟩, ⟨0⟩⟩⟩

/-! ## strconv.ParseUint against the decimal value of the text -/

theorem decimalValueFrom_ge (cs : List Char) :
    ∀ (acc v : Nat), decimalValueFrom acc cs = some v → acc ≤ v := by
  induction cs with
  | nil =>
    intro acc v h
    simp only [decimalValueFrom, Option.some.injEq] at h
    omega
  | cons c cs ih =>
    intro acc v h
    unfold decimalValueFrom at h
    split at h
    · have := ih _ _ h
      omega
    · simp at h

theorem digitVal_digit (c : Char) (h : 48 ≤ c.toNat ∧ c.toNat ≤ 57) :
    digitVal c = some (c.toNat - 48) := by
  simp [digitVal, h]

theorem parseUintLoop_nondigit (maxVal n : Nat) (c : Char) (cs : List Char)
    (h : ¬ (48 ≤ c.toNat ∧ c.toNat ≤ 57)) :
    parseUintLoop maxVal n (c :: cs) = (0, some .ErrSyntax) := by
  unfold parseUintLoop digitVal
  rw [if_neg h]
  split
  · rfl
  · rename_i d hd
    split at hd
    · simp only [Option.some.injEq] at hd
      have : d ≥ 10 := by omega
      simp [this]
    · simp at hd

theorem parseUintLoop_digit (maxVal n : Nat) (c : Char) (cs : List Char)
    (h : 48 ≤ c.toNat ∧ c.toNat ≤ 57) :
    parseUintLoop maxVal n (c :: cs) =
      if n ≥ 1844674407370955162 then (maxVal, some .ErrRange)
      else if (n * 10 % 18446744073709551616 + (c.toNat - 48)) % 18446744073709551616
            < n * 10 % 18446744073709551616 ∨
          (n * 10 % 18446744073709551616 + (c.toNat - 48)) % 18446744073709551616 > maxVal
        then (maxVal, some .ErrRange)
      else parseUintLoop maxVal
        ((n * 10 % 18446744073709551616 + (c.toNat - 48)) % 18446744073709551616) cs := by
  rw [parseUintLoop, digitVal_digit c h]
  have hd : ¬ (c.toNat - 48 ≥ 10) := by omega
  simp only [hd, if_false]
  norm_num

/-- The loop returns a value without error exactly when the text continues
`n` to a decimal number that fits. -/
theorem parseUintLoop_ok_iff (maxVal : Nat) (hmax : maxVal < 2 ^ 64) (cs : List Char) :
    ∀ (n v : Nat), n ≤ maxVal →
      (parseUintLoop maxVal n cs = (v, none) ↔ decimalValueFrom n cs = some v ∧ v ≤ maxVal) := by
  norm_num at hmax
  induction cs with
  | nil =>
    intro n v hn
    simp only [parseUintLoop, decimalValueFrom, Prod.mk.injEq, and_true, Option.some.injEq]
    constructor
    · intro h; subst h; exact ⟨rfl, hn⟩
    · intro h; exact h.1
  | cons c cs ih =>
    intro n v hn
    by_cases hc : 48 ≤ c.toNat ∧ c.toNat ≤ 57
    · rw [parseUintLoop_digit maxVal n c cs hc]
      have hdv : decimalValueFrom n (c :: cs) = decimalValueFrom (n * 10 + (c.toNat - 48)) cs := by
        rw [decimalValueFrom, if_pos hc]
      rw [hdv]
      by_cases h1 : n ≥ 1844674407370955162
      · rw [if_pos h1]
        constructor
        · intro h; simp at h
        · rintro ⟨h, hv⟩
          have := decimalValueFrom_ge cs _ _ h
          omega
      · rw [if_neg h1]
        by_cases h2 : (n * 10 % 18446744073709551616 + (c.toNat - 48)) % 18446744073709551616
              < n * 10 % 18446744073709551616 ∨
            (n * 10 % 18446744073709551616 + (c.toNat - 48)) % 18446744073709551616 > maxVal
        · rw [if_pos h2]
          constructor
          · intro h; simp at h
          · rintro ⟨h, hv⟩
            have := decimalValueFrom_ge cs _ _ h
            omega
        · rw [if_neg h2]
          have heq : (n * 10 % 18446744073709551616 + (c.toNat - 48)) % 18446744073709551616
              = n * 10 + (c.toNat - 48) := by omega
          rw [heq]
          apply ih
          omega
    · rw [parseUintLoop_nondigit maxVal n c cs hc]
      have hdv : decimalValueFrom n (c :: cs) = none := by
        rw [decimalValueFrom, if_neg hc]
      rw [hdv]
      simp

/-- On an error the loop returns 0 (syntax) or `maxVal` (range). -/
theorem parseUintLoop_err (maxVal : Nat) (cs : List Char) :
    ∀ (n : Nat), (parseUintLoop maxVal n cs).2 = none ∨
      parseUintLoop maxVal n cs = (0, some .ErrSyntax) ∨
      parseUintLoop maxVal n cs = (maxVal, some .ErrRange) := by
  induction cs with
  | nil => intro n; left; rfl
  | cons c cs ih =>
    intro n
    by_cases hc : 48 ≤ c.toNat ∧ c.toNat ≤ 57
    · rw [parseUintLoop_digit maxVal n c cs hc]
      split
      · right; right; rfl
      · split
        · right; right; rfl
        · exact ih _
    · rw [parseUintLoop_nondigit maxVal n c cs hc]
      right; left; rfl

theorem string_length_zero_iff (s : String) : ¬ (s.length ≥ 1) ↔ s = "" := by
  constructor
  · intro h
    have h0 : s.data.length = 0 := by
      have : s.length = s.data.length := rfl
      omega
    apply String.ext
    simpa using List.length_eq_zero.mp h0
  · intro h; subst h; decide

/-- The text is accepted by `ParseUint` exactly when it is a decimal number
that fits the bit size. -/
theorem ParseUint_ok_iff (s : String) (bitSize : Nat) (hb : bitSize ≤ 64) (v : Nat) :
    ParseUint s bitSize = (v, none) ↔ decimalValue s = some v ∧ v ≤ 2 ^ bitSize - 1 := by
  have hmax : 2 ^ bitSize - 1 < 2 ^ 64 := by
    have : 2 ^ bitSize ≤ 2 ^ 64 := Nat.pow_le_pow_right (by norm_num) hb
    have : 0 < 2 ^ bitSize := Nat.pow_pos (by norm_num)
    omega
  unfold ParseUint decimalValue
  by_cases hs : s = ""
  · simp [hs]
  · rw [if_neg hs, if_neg hs]
    exact parseUintLoop_ok_iff _ hmax s.data 0 v (Nat.zero_le _)

/-- The variable `cnt` is the decimal value of the `count` text when that is
at most 65535, and 1 in every other case. -/
theorem resolveCount_eq (query : Values) :
    resolveCount query =
      match decimalValue (query.Get "count") with
      | some v => if v ≤ 65535 then v else 1
      | none => 1 := by
  unfold resolveCount
  by_cases hl : (query.Get "count").length ≥ 1
  · rw [if_pos hl]
    rcases h : ParseUint (query.Get "count") 16 with ⟨v, err⟩
    cases err with
    | none =>
      have h2 := (ParseUint_ok_iff _ 16 (by norm_num) v).mp h
      rw [h2.1]
      have : v ≤ 65535 := by simpa using h2.2
      simp only [this, if_true]
      omega
    | some e =>
      simp only
      cases hd : decimalValue (query.Get "count") with
      | none => rfl
      | some w =>
        simp only
        by_cases hw : w ≤ 65535
        · have := (ParseUint_ok_iff (query.Get "count") 16 (by norm_num) w).mpr
            ⟨hd, by simpa using hw⟩
          rw [h] at this
          simp at this
        · rw [if_neg hw]
  · rw [if_neg hl]
    have hs := (string_length_zero_iff _).mp hl
    rw [hs]
    rfl

/-! ## The `/retrieve` handler: the cache path and the 16-bit count -/

theorem Entry_zero_marshalable : Entry.zero.marshalable = true := by decide

theorem Marshal_single (e : Entry) (h : e.marshalable = true) :
    Marshal (some [e]) = some (.array [e]) := by
  simp [Marshal, h]

theorem retrieveHandler_cache_path (s : State) (query : Values) (ioErr : Bool)
    (hcnt : ¬ resolveCount query > 1) :
    retrieveHandler s query ioErr =
      match Marshal (some [s.lastDatabaseAddition]) with
      | none => ⟨s, [], none, true⟩
      | some res => ⟨s, [], some res, false⟩ := by
  unfold retrieveHandler
  simp only [hcnt, if_false]

/-- C1: when the `count` text is absent, empty, not an unsigned decimal
number, or denotes 0 or 1, the `/retrieve` handler answers with the JSON array
whose only element is `lastDatabaseAddition[0]`, makes no call on the store
and leaves the state as it was; the cache slot being JSON-encodable, as it is
in every state a serving process reaches. -/
theorem retrieve_serves_cache (s : State) (query : Values) (ioErr : Bool)
    (hcount : query "count" = [] ∨ query.Get "count" = "" ∨
      decimalValue (query.Get "count") = none ∨
      decimalValue (query.Get "count") = some 0 ∨
      decimalValue (query.Get "count") = some 1)
    (henc : s.lastDatabaseAddition.marshalable = true) :
    retrieveHandler s query ioErr =
      ⟨s, [], some (.array [s.lastDatabaseAddition]), false⟩ := by
  have hcnt : ¬ resolveCount query > 1 := by
    rw [resolveCount_eq]
    rcases hcount with h | h | h | h | h
    · have : query.Get "count" = "" := by simp [Values.Get, h]
      rw [this]; decide
    · rw [h]; decide
    · rw [h]; decide
    · rw [h]; decide
    · rw [h]; decide
  rw [retrieveHandler_cache_path s query ioErr hcnt, Marshal_single _ henc]

/-- C1 at a store of two entries and the text `abc`. -/
theorem retrieve_serves_cache_witness :
    retrieveHandler ⟨⟨[sample 3, sample 7]⟩, sample 7⟩ (single "count" "abc") false =
      ⟨⟨⟨[sample 3, sample 7]⟩, sample 7⟩, [], some (.array [sample 7]), false⟩ :=
  retrieve_serves_cache ⟨⟨[sample 3, sample 7]⟩, sample 7⟩ (single "count" "abc") false
    (Or.inr (Or.inr (Or.inl (by decide)))) (by decide)

/-- C10: `cnt` is the decimal value of the `count` text when that is at most
65535 and 1 otherwise; a text whose value exceeds 65535 is answered exactly
like `count=1`, from the cache slot and without a call on the store; and no
request asks the store for more than 65535 entries. -/
theorem count_is_16_bit (atof64 : String → Scan) (s : State) (query : Values) (ioErr : Bool) :
    (resolveCount query =
      match decimalValue (query.Get "count") with
      | some v => if v ≤ 65535 then v else 1
      | none => 1) ∧
    (∀ v, decimalValue (query.Get "count") = some v → 65535 < v →
      resolveCount query = 1 ∧
      retrieveHandler s query ioErr = retrieveHandler s (single "count" "1") ioErr ∧
      (retrieveHandler s query ioErr).calls = [] ∧
      (retrieveHandler s query ioErr).body = Marshal (some [s.lastDatabaseAddition])) ∧
    (∀ limit reverse, DBCall.All limit reverse ∈ (retrieveHandler s query ioErr).calls →
      limit ≤ 65535) ∧
    (∀ limit reverse, DBCall.All limit reverse ∉ (submitHandler atof64 s query ioErr).calls) := by
  refine ⟨resolveCount_eq query, ?_, ?_, ?_⟩
  · intro v hv hlt
    have h1 : resolveCount query = 1 := by
      rw [resolveCount_eq, hv]
      simp only
      rw [if_neg (by omega)]
    have hcnt : ¬ resolveCount query > 1 := by omega
    have hcnt1 : ¬ resolveCount (single "count" "1") > 1 := by decide
    refine ⟨h1, ?_, ?_, ?_⟩
    · rw [retrieveHandler_cache_path s query ioErr hcnt,
        retrieveHandler_cache_path s _ ioErr hcnt1]
    · rw [retrieveHandler_cache_path s query ioErr hcnt]
      cases Marshal (some [s.lastDatabaseAddition]) <;> rfl
    · rw [retrieveHandler_cache_path s query ioErr hcnt]
      cases Marshal (some [s.lastDatabaseAddition]) <;> rfl
  · intro limit reverse hmem
    have hle : resolveCount query ≤ 65535 := by
      rw [resolveCount_eq]
      cases decimalValue (query.Get "count") with
      | none => simp
      | some v =>
        simp only
        split <;> omega
    unfold retrieveHandler at hmem
    simp only at hmem
    split at hmem
    · split at hmem <;>
        · simp only [List.mem_singleton, DBCall.All.injEq] at hmem
          omega
    · split at hmem <;> simp at hmem
  · intro limit reverse hmem
    unfold submitHandler at hmem
    simp only at hmem
    split at hmem
    · simp at hmem
    · split at hmem <;> simp at hmem

/-! ## The `/submit` handler -/

theorem buildEntry_eq (atof64 : String → Scan) (query : Values) :
    buildEntry atof64 query =
      ⟨(buildUpdate atof64 query).Timestamp, buildUpdate atof64 query⟩ := rfl

theorem submitHandler_saved (atof64 : String → Scan) (s : State) (query : Values)
    (henc : (buildUpdate atof64 query).marshalable = true) :
    submitHandler atof64 s query false =
      ⟨⟨⟨s.db.records ++ [buildEntry atof64 query]⟩, buildEntry atof64 query⟩,
        [.Save (buildEntry atof64 query)], none, false⟩ := by
  simp [submitHandler, henc, DB.Save, buildEntry_eq]

theorem submitHandler_fatal_iff (atof64 : String → Scan) (s : State) (query : Values)
    (ioErr : Bool) :
    (submitHandler atof64 s query ioErr).fatal = false ↔
      (buildUpdate atof64 query).marshalable = true ∧ ioErr = false := by
  cases henc : (buildUpdate atof64 query).marshalable <;> cases ioErr <;>
    simp [submitHandler, DB.Save, henc]

theorem submitHandler_failed (atof64 : String → Scan) (s : State) (query : Values)
    (ioErr : Bool) (h : (submitHandler atof64 s query ioErr).fatal = true) :
    (submitHandler atof64 s query ioErr).state = s := by
  cases henc : (buildUpdate atof64 query).marshalable <;> cases ioErr <;>
    simp [submitHandler, DB.Save, henc] at h ⊢

/-- C3: the `/submit` handler assigns the cache exactly when `db.Save`
returned without error. When the save succeeds the cache is the new entry and
the store is the saved one, with no condition on the timestamps; when the save
fails the run is fatal with the cache and the store as they were; and the run
is not fatal exactly when the save was reached and succeeded. -/
theorem submit_sets_cache_iff_saved (atof64 : String → Scan) (s : State) (query : Values)
    (ioErr : Bool) :
    (∀ db, (buildUpdate atof64 query).marshalable = true →
      s.db.Save ioErr (buildEntry atof64 query) = some db →
      (submitHandler atof64 s query ioErr).state = ⟨db, buildEntry atof64 query⟩ ∧
      (submitHandler atof64 s query ioErr).fatal = false ∧
      db.records = s.db.records ++ [buildEntry atof64 query]) ∧
    (s.db.Save ioErr (buildEntry atof64 query) = none →
      (submitHandler atof64 s query ioErr).state = s ∧
      (submitHandler atof64 s query ioErr).fatal = true) ∧
    ((submitHandler atof64 s query ioErr).fatal = false ↔
      (buildUpdate atof64 query).marshalable = true ∧
      (s.db.Save ioErr (buildEntry atof64 query)).isSome = true) ∧
    ((submitHandler atof64 s query ioErr).fatal = true →
      (submitHandler atof64 s query ioErr).state = s) := by
  refine ⟨?_, ?_, ?_, submitHandler_failed atof64 s query ioErr⟩
  · intro db henc hsave
    cases ioErr with
    | true => simp [DB.Save] at hsave
    | false =>
      rw [submitHandler_saved atof64 s query henc]
      simp only [DB.Save, Bool.false_eq_true, if_false, Option.some.injEq] at hsave
      subst hsave
      exact ⟨rfl, rfl, rfl⟩
  · intro hsave
    cases ioErr with
    | false => simp [DB.Save] at hsave
    | true =>
      have hf : (submitHandler atof64 s query true).fatal = true := by
        cases h : (submitHandler atof64 s query true).fatal with
        | true => rfl
        | false => simpa using ((submitHandler_fatal_iff atof64 s query true).mp h).2
      exact ⟨submitHandler_failed atof64 s query true hf, hf⟩
  · rw [submitHandler_fatal_iff]
    cases ioErr <;> simp [DB.Save]

theorem ParseFloat_syntax_zero (atof64 : String → Scan) (t : String)
    (h : (ParseFloat atof64 t).2 = some .ErrSyntax) : (ParseFloat atof64 t).1 = ⟨0⟩ := by
  unfold ParseFloat at h ⊢
  split
  · rfl
  · rename_i hne
    rw [if_neg hne] at h
    cases hs : atof64 t with
    | ok f => rw [hs] at h; simp at h
    | malformed => rfl
    | overflow neg => rw [hs] at h; simp at h

theorem ParseFloat_missing (atof64 : String → Scan) (query : Values) (key : String)
    (h : query key = []) : (ParseFloat atof64 (query.Get key)).1 = ⟨0⟩ := by
  have : query.Get key = "" := by simp [Values.Get, h]
  rw [this]
  rfl

theorem ParseUint_syntax_zero (t : String) (bitSize : Nat)
    (h : (ParseUint t bitSize).2 = some .ErrSyntax) : (ParseUint t bitSize).1 = 0 := by
  unfold ParseUint at h ⊢
  split
  · rfl
  · rename_i hne
    rw [if_neg hne] at h
    rcases parseUintLoop_err (2 ^ bitSize - 1) t.data 0 with h1 | h1 | h1
    · rw [h1] at h; simp at h
    · rw [h1]
    · rw [h1] at h; simp at h

theorem ParseUint_range_max (t : String) (bitSize : Nat)
    (h : (ParseUint t bitSize).2 = some .ErrRange) :
    (ParseUint t bitSize).1 = 2 ^ bitSize - 1 := by
  unfold ParseUint at h ⊢
  split
  · rename_i he
    rw [if_pos he] at h
    simp at h
  · rename_i hne
    rw [if_neg hne] at h
    rcases parseUintLoop_err (2 ^ bitSize - 1) t.data 0 with h1 | h1 | h1
    · rw [h1] at h; simp at h
    · rw [h1] at h; simp at h
    · rw [h1]

/-- C6, as the claim states it, fails: the text 18446744073709551616 is
rejected by `strconv.ParseUint(text, 10, 64)`, with a range error, and the
entry built from it has the timestamp 18446744073709551615, not 0. -/
theorem timestamp_out_of_range_is_not_zero :
    (ParseUint ((single "timestamp" "18446744073709551616").Get "timestamp") 64).2
      = some NumError.ErrRange ∧
    (buildEntry (fun _ => Scan.malformed) (single "timestamp" "18446744073709551616")).Timestamp
      = 18446744073709551615 ∧
    (buildEntry (fun _ => Scan.malformed) (single "timestamp" "18446744073709551616")).Timestamp
      ≠ 0 := by
  decide

theorem Float64_Inf_not_marshalable (neg : Bool) : (Float64.Inf neg).marshalable = false := by
  cases neg <;> decide

theorem ParseFloat_range_inf (atof64 : String → Scan) (t : String)
    (h : (ParseFloat atof64 t).2 = some .ErrRange) :
    ∃ neg, (ParseFloat atof64 t).1 = Float64.Inf neg := by
  unfold ParseFloat at h ⊢
  split
  · rename_i he
    rw [if_pos he] at h
    simp at h
  · rename_i hne
    rw [if_neg hne] at h
    cases hs : atof64 t with
    | ok f => rw [hs] at h; simp at h
    | malformed => rw [hs] at h; simp at h
    | overflow neg => exact ⟨neg, rfl⟩

theorem buildUpdate_marshalable_iff (atof64 : String → Scan) (query : Values) :
    (buildUpdate atof64 query).marshalable = true ↔
      (ParseFloat atof64 (query.Get "lat")).1.marshalable = true ∧
      (ParseFloat atof64 (query.Get "lon")).1.marshalable = true ∧
      (ParseFloat atof64 (query.Get "hdop")).1.marshalable = true ∧
      (ParseFloat atof64 (query.Get "altitude")).1.marshalable = true ∧
      (ParseFloat atof64 (query.Get "speed")).1.marshalable = true := by
  simp only [LocationUpdate.marshalable, buildUpdate, Bool.and_eq_true, and_assoc]

/-- C6, amended: each field of the built entry holds the value strconv returns
for that field's own text: the number the text denotes when it parses, zero
when the text is missing or is rejected with a syntax error, 2^64 - 1 for a
timestamp text rejected with a range error, an infinity for a float text
rejected with a range error. The request is ingested exactly when the five
float values are JSON-encodable and `db.Save` succeeds: a missing or
syntax-rejected field and a rejected timestamp do not stop it, a float text
rejected with a range error ends the handler in `log.Fatal` with nothing
saved. -/
theorem submit_parse_leniency (atof64 : String → Scan) (s : State) (query : Values)
    (ioErr : Bool) :
    ((buildEntry atof64 query).Timestamp = (ParseUint (query.Get "timestamp") 64).1 ∧
      (buildEntry atof64 query).Data.Timestamp = (ParseUint (query.Get "timestamp") 64).1 ∧
      (buildEntry atof64 query).Data.Latitude = (ParseFloat atof64 (query.Get "lat")).1 ∧
      (buildEntry atof64 query).Data.Longitude = (ParseFloat atof64 (query.Get "lon")).1 ∧
      (buildEntry atof64 query).Data.Hdop = (ParseFloat atof64 (query.Get "hdop")).1 ∧
      (buildEntry atof64 query).Data.Altitude = (ParseFloat atof64 (query.Get "altitude")).1 ∧
      (buildEntry atof64 query).Data.Speed = (ParseFloat atof64 (query.Get "speed")).1) ∧
    (∀ v, decimalValue (query.Get "timestamp") = some v → v ≤ 2 ^ 64 - 1 →
      (buildEntry atof64 query).Timestamp = v ∧ (buildEntry atof64 query).Data.Timestamp = v) ∧
    ((query "timestamp" = [] ∨ (ParseUint (query.Get "timestamp") 64).2 = some .ErrSyntax) →
      (buildEntry atof64 query).Timestamp = 0 ∧ (buildEntry atof64 query).Data.Timestamp = 0) ∧
    ((ParseUint (query.Get "timestamp") 64).2 = some .ErrRange →
      (buildEntry atof64 query).Timestamp = 2 ^ 64 - 1 ∧
      (buildEntry atof64 query).Data.Timestamp = 2 ^ 64 - 1) ∧
    ((query "lat" = [] ∨ (ParseFloat atof64 (query.Get "lat")).2 = some .ErrSyntax) →
      (buildEntry atof64 query).Data.Latitude = ⟨0⟩) ∧
    ((query "lon" = [] ∨ (ParseFloat atof64 (query.Get "lon")).2 = some .ErrSyntax) →
      (buildEntry atof64 query).Data.Longitude = ⟨0⟩) ∧
    ((query "hdop" = [] ∨ (ParseFloat atof64 (query.Get "hdop")).2 = some .ErrSyntax) →
      (buildEntry atof64 query).Data.Hdop = ⟨0⟩) ∧
    ((query "altitude" = [] ∨ (ParseFloat atof64 (query.Get "altitude")).2 = some .ErrSyntax) →
      (buildEntry atof64 query).Data.Altitude = ⟨0⟩) ∧
    ((query "speed" = [] ∨ (ParseFloat atof64 (query.Get "speed")).2 = some .ErrSyntax) →
      (buildEntry atof64 query).Data.Speed = ⟨0⟩) ∧
    (∀ key : String,
      ((query key = [] ∨ (ParseFloat atof64 (query.Get key)).2 = some .ErrSyntax) →
        (ParseFloat atof64 (query.Get key)).1.marshalable = true) ∧
      ((ParseFloat atof64 (query.Get key)).2 = some .ErrRange →
        (∃ neg, (ParseFloat atof64 (query.Get key)).1 = Float64.Inf neg) ∧
        (ParseFloat atof64 (query.Get key)).1.marshalable = false)) ∧
    ((submitHandler atof64 s query ioErr).fatal = false ↔
      ((ParseFloat atof64 (query.Get "lat")).1.marshalable = true ∧
        (ParseFloat atof64 (query.Get "lon")).1.marshalable = true ∧
        (ParseFloat atof64 (query.Get "hdop")).1.marshalable = true ∧
        (ParseFloat atof64 (query.Get "altitude")).1.marshalable = true ∧
        (ParseFloat atof64 (query.Get "speed")).1.marshalable = true) ∧
      ioErr = false) ∧
    ((submitHandler atof64 s query ioErr).fatal = false →
      (submitHandler atof64 s query ioErr).state
        = ⟨⟨s.db.records ++ [buildEntry atof64 query]⟩, buildEntry atof64 query⟩) ∧
    ((submitHandler atof64 s query ioErr).fatal = true →
      (submitHandler atof64 s query ioErr).state = s) ∧
    (∀ key ∈ ["lat", "lon", "hdop", "altitude", "speed"],
      (ParseFloat atof64 (query.Get key)).2 = some .ErrRange →
      (submitHandler atof64 s query ioErr).fatal = true ∧
      (submitHandler atof64 s query ioErr).state = s) := by
  have hts : query "timestamp" = [] → (ParseUint (query.Get "timestamp") 64).2
      = some .ErrSyntax := by
    intro h
    have : query.Get "timestamp" = "" := by simp [Values.Get, h]
    rw [this]; rfl
  have hfl : ∀ key, (query key = [] ∨ (ParseFloat atof64 (query.Get key)).2 = some .ErrSyntax) →
      (ParseFloat atof64 (query.Get key)).1 = ⟨0⟩ := by
    intro key h
    rcases h with h | h
    · exact ParseFloat_missing atof64 query key h
    · exact ParseFloat_syntax_zero atof64 _ h
  have hrange : ∀ key, (ParseFloat atof64 (query.Get key)).2 = some .ErrRange →
      (ParseFloat atof64 (query.Get key)).1.marshalable = false := by
    intro key h
    obtain ⟨neg, hneg⟩ := ParseFloat_range_inf atof64 _ h
    rw [hneg]
    exact Float64_Inf_not_marshalable neg
  have hiff : (submitHandler atof64 s query ioErr).fatal = false ↔
      ((ParseFloat atof64 (query.Get "lat")).1.marshalable = true ∧
        (ParseFloat atof64 (query.Get "lon")).1.marshalable = true ∧
        (ParseFloat atof64 (query.Get "hdop")).1.marshalable = true ∧
        (ParseFloat atof64 (query.Get "altitude")).1.marshalable = true ∧
        (ParseFloat atof64 (query.Get "speed")).1.marshalable = true) ∧
      ioErr = false := by
    rw [submitHandler_fatal_iff, buildUpdate_marshalable_iff]
  have hfatal : (submitHandler atof64 s query ioErr).fatal = true →
      (submitHandler atof64 s query ioErr).state = s :=
    submitHandler_failed atof64 s query ioErr
  refine ⟨⟨rfl, rfl, rfl, rfl, rfl, rfl, rfl⟩, ?_, ?_, ?_, hfl "lat", hfl "lon", hfl "hdop",
    hfl "altitude", hfl "speed", ?_, hiff, ?_, hfatal, ?_⟩
  · intro v hv hle
    have h := (ParseUint_ok_iff (query.Get "timestamp") 64 (Nat.le_refl _) v).mpr ⟨hv, hle⟩
    have h1 : (ParseUint (query.Get "timestamp") 64).1 = v := by rw [h]
    exact ⟨h1, h1⟩
  · intro h
    have h2 : (ParseUint (query.Get "timestamp") 64).2 = some .ErrSyntax := by
      rcases h with h | h
      · exact hts h
      · exact h
    exact ⟨ParseUint_syntax_zero _ _ h2, ParseUint_syntax_zero _ _ h2⟩
  · intro h
    exact ⟨ParseUint_range_max _ _ h, ParseUint_range_max _ _ h⟩
  · intro key
    refine ⟨?_, ?_⟩
    · intro h
      rw [hfl key h]
      decide
    · intro h
      exact ⟨ParseFloat_range_inf atof64 _ h, hrange key h⟩
  · intro hf
    have h := (submitHandler_fatal_iff atof64 s query ioErr).mp hf
    rw [h.2, submitHandler_saved atof64 s query h.1]
  · intro key hkey hr
    have hbad := hrange key hr
    have hf : (submitHandler atof64 s query ioErr).fatal = true := by
      cases hc : (submitHandler atof64 s query ioErr).fatal with
      | true => rfl
      | false =>
        have h5 := (hiff.mp hc).1
        simp only [List.mem_cons, List.mem_singleton, List.not_mem_nil, or_false] at hkey
        rcases hkey with h | h | h | h | h <;> subst h
        · rw [h5.1] at hbad; simp at hbad
        · rw [h5.2.1] at hbad; simp at hbad
        · rw [h5.2.2.1] at hbad; simp at hbad
        · rw [h5.2.2.2.1] at hbad; simp at hbad
        · rw [h5.2.2.2.2] at hbad; simp at hbad
    exact ⟨hf, hfatal hf⟩

/-! ## Startup: the seeding of the cache -/

theorem Listen_eq (db : DB) (ioErr : Bool) :
    Listen db ioErr = ⟨⟨db, Entry.zero⟩, [.All 1 true], none, false⟩ := by
  simp [Listen, DB.AllTo, Marshal_single _ Entry_zero_marshalable]

/-- C8: evaluated on a failing read. Whatever the store holds, when the read of
the most recent entry fails `Listen` is not fatal: it goes on to serve with
the cache slot at its zero value. -/
theorem listen_ignores_read_error (db : DB) :
    db.All true 1 true = none ∧
    (Listen db true).fatal = false ∧
    (Listen db true).calls = [.All 1 true] ∧
    (Listen db true).state = ⟨db, Entry.zero⟩ := by
  rw [Listen_eq]
  exact ⟨rfl, rfl, rfl, rfl⟩

/-! ## The store read: order, length and choice of the entries -/

theorem DB_All_reverse (db : DB) (limit : Nat) (h : limit ≠ 0) :
    db.All false limit true = some (db.descending.take limit) := by
  simp [DB.All, DB.descending, h]

theorem descending_perm (db : DB) : db.descending.Perm db.records :=
  (List.reverse_perm _).trans (List.perm_insertionSort _ _)

theorem descending_pairwise (db : DB) :
    db.descending.Pairwise (fun a b => b.Timestamp ≤ a.Timestamp) := by
  unfold DB.descending
  rw [List.pairwise_reverse]
  exact List.sorted_insertionSort Entry.keyLE db.records

theorem descending_mem (db : DB) (e : Entry) : e ∈ db.descending ↔ e ∈ db.records :=
  (descending_perm db).mem_iff

theorem descending_length (db : DB) : db.descending.length = db.records.length :=
  (descending_perm db).length_eq

/-- The first entry read in descending order has the greatest timestamp. -/
theorem descending_head_max (db : DB) (h : Entry) (t : List Entry)
    (hd : db.descending = h :: t) :
    h ∈ db.records ∧ ∀ e ∈ db.records, e.Timestamp ≤ h.Timestamp := by
  have hp := descending_pairwise db
  rw [hd] at hp
  have hmem : ∀ e, e ∈ db.records ↔ e ∈ h :: t := by
    intro e; rw [← hd]; exact (descending_mem db e).symm
  refine ⟨(hmem h).mpr (List.mem_cons_self _ _), ?_⟩
  intro e he
  rcases List.mem_cons.mp ((hmem e).mp he) with h1 | h1
  · rw [h1]
  · exact (List.pairwise_cons.mp hp).1 e h1

/-- An entry of the store is among the first `k` read in descending order when
at most `k` entries of the store have a timestamp at least as great. -/
theorem mem_take_descending (db : DB) (x : Entry) (k : Nat) (hx : x ∈ db.records)
    (hk : db.records.countP (fun e => decide (x.Timestamp ≤ e.Timestamp)) ≤ k) :
    x ∈ db.descending.take k := by
  by_contra hnot
  have hsplit : db.descending.take k ++ db.descending.drop k = db.descending :=
    List.take_append_drop k _
  have hxd : x ∈ db.descending.drop k := by
    have : x ∈ db.descending.take k ++ db.descending.drop k := by
      rw [hsplit]; exact (descending_mem db x).mpr hx
    rcases List.mem_append.mp this with h | h
    · exact absurd h hnot
    · exact h
  have hp := descending_pairwise db
  rw [← hsplit, List.pairwise_append] at hp
  have hall : ∀ a ∈ db.descending.take k, decide (x.Timestamp ≤ a.Timestamp) = true := by
    intro a ha
    exact decide_eq_true (hp.2.2 a ha x hxd)
  have hlen : (db.descending.take k).length = k := by
    rw [List.length_take]
    have : k < db.descending.length := by
      by_contra hge
      rw [List.drop_eq_nil_of_le (by omega)] at hxd
      simp at hxd
    omega
  have hc1 : (db.descending.take k).countP (fun e => decide (x.Timestamp ≤ e.Timestamp)) = k := by
    rw [List.countP_eq_length.mpr hall, hlen]
  have hc2 : 0 < (db.descending.drop k).countP (fun e => decide (x.Timestamp ≤ e.Timestamp)) :=
    List.countP_pos_iff.mpr ⟨x, hxd, by simp⟩
  have hc : db.descending.countP (fun e => decide (x.Timestamp ≤ e.Timestamp))
      = db.records.countP (fun e => decide (x.Timestamp ≤ e.Timestamp)) :=
    (descending_perm db).countP_eq _
  rw [← hsplit, List.countP_append] at hc
  omega

theorem Marshal_all (es : List Entry) (h : ∀ e ∈ es, e.marshalable = true) :
    Marshal (some es) = some (.array es) := by
  have : es.all Entry.marshalable = true := List.all_eq_true.mpr h
  simp [Marshal, this]

theorem retrieveHandler_store_path (s : State) (query : Values)
    (hcnt : resolveCount query > 1) (henc : ∀ e ∈ s.db.records, e.marshalable = true) :
    retrieveHandler s query false =
      ⟨s, [.All (resolveCount query) true],
        some (.array (s.db.descending.take (resolveCount query))), false⟩ := by
  have hne : resolveCount query ≠ 0 := by omega
  have hm : Marshal (some (s.db.descending.take (resolveCount query)))
      = some (.array (s.db.descending.take (resolveCount query))) := by
    apply Marshal_all
    intro e he
    exact henc e ((descending_mem s.db e).mp (List.mem_of_mem_take he))
  unfold retrieveHandler
  simp only [hcnt, if_true, DB_All_reverse s.db _ hne, hm]

/-- C2: for a count `cnt > 1` the `/retrieve` handler reads the store once
with limit `cnt` and answers with `min cnt n` of its `n` entries, in descending
order of timestamp, no entry left out having a greater timestamp than one
returned; the read not failing and the stored entries being JSON-encodable. -/
theorem retrieve_reads_recent (s : State) (query : Values)
    (hcnt : resolveCount query > 1)
    (henc : ∀ e ∈ s.db.records, e.marshalable = true) :
    ∃ es rest : List Entry,
      retrieveHandler s query false =
        ⟨s, [.All (resolveCount query) true], some (.array es), false⟩ ∧
      es.length = min (resolveCount query) s.db.records.length ∧
      es.Pairwise (fun a b => b.Timestamp ≤ a.Timestamp) ∧
      (es ++ rest).Perm s.db.records ∧
      (∀ a ∈ es, ∀ b ∈ rest, b.Timestamp ≤ a.Timestamp) := by
  refine ⟨s.db.descending.take (resolveCount query),
    s.db.descending.drop (resolveCount query),
    retrieveHandler_store_path s query hcnt henc, ?_, ?_, ?_, ?_⟩
  · rw [List.length_take, descending_length]
  · exact (descending_pairwise s.db).sublist (List.take_sublist _ _)
  · rw [List.take_append_drop]
    exact descending_perm s.db
  · have hp := descending_pairwise s.db
    rw [← List.take_append_drop (resolveCount query) s.db.descending, List.pairwise_append] at hp
    exact hp.2.2

/-- C2 at a store of three entries and `count=2`. -/
theorem retrieve_reads_recent_witness :
    ∃ es rest : List Entry,
      retrieveHandler ⟨⟨[sample 10, sample 30, sample 20]⟩, sample 20⟩
          (single "count" "2") false =
        ⟨⟨⟨[sample 10, sample 30, sample 20]⟩, sample 20⟩,
          [.All (resolveCount (single "count" "2")) true], some (.array es), false⟩ ∧
      es.length = min (resolveCount (single "count" "2"))
        (DB.mk [sample 10, sample 30, sample 20]).records.length ∧
      es.Pairwise (fun a b => b.Timestamp ≤ a.Timestamp) ∧
      (es ++ rest).Perm (DB.mk [sample 10, sample 30, sample 20]).records ∧
      (∀ a ∈ es, ∀ b ∈ rest, b.Timestamp ≤ a.Timestamp) :=
  retrieve_reads_recent ⟨⟨[sample 10, sample 30, sample 20]⟩, sample 20⟩
    (single "count" "2") (by decide) (by decide)

/-- The scenario of the specification: `count=5` after three ingestions of
distinct timestamps into an empty store returns those three entries, the
newest first. -/
theorem retrieve_five_after_three :
    ingestAll (fun _ => Scan.malformed) ⟨⟨[]⟩, Entry.zero⟩
      [single "timestamp" "10", single "timestamp" "30", single "timestamp" "20"]
      = some ⟨⟨[sample 10, sample 30, sample 20]⟩, sample 20⟩ ∧
    retrieveHandler ⟨⟨[sample 10, sample 30, sample 20]⟩, sample 20⟩
        (single "count" "5") false =
      ⟨⟨⟨[sample 10, sample 30, sample 20]⟩, sample 20⟩, [.All 5 true],
        some (.array [sample 30, sample 20, sample 10]), false⟩ := by
  decide

/-! ## Ingestion against the store read -/

theorem descending_append_newest (db : DB) (e : Entry)
    (hnew : ∀ x ∈ db.records, x.Timestamp < e.Timestamp) :
    (DB.mk (db.records ++ [e])).descending.take 1 = [e] := by
  cases hd : (DB.mk (db.records ++ [e])).descending with
  | nil =>
    have := descending_length (DB.mk (db.records ++ [e]))
    rw [hd] at this
    simp at this
  | cons h t =>
    have hmax := descending_head_max _ h t hd
    have he : e.Timestamp ≤ h.Timestamp := hmax.2 e (by simp)
    have hh : h = e := by
      rcases List.mem_append.mp hmax.1 with h1 | h1
      · have := hnew h h1
        omega
      · simpa using h1
    simp [hh]

/-- C4, as the claim states it, fails: with an entry of timestamp 10 stored, a
successful `/submit` of timestamp 5 leaves the new entry in the cache while the
read of the most recent entry still returns the entry of timestamp 10. -/
theorem read_recent_differs_after_older_submit :
    (submitHandler (fun _ => Scan.malformed) ⟨⟨[sample 10]⟩, sample 10⟩
      (single "timestamp" "5") false).fatal = false ∧
    (submitHandler (fun _ => Scan.malformed) ⟨⟨[sample 10]⟩, sample 10⟩
      (single "timestamp" "5") false).state = ⟨⟨[sample 10, sample 5]⟩, sample 5⟩ ∧
    DB.All ⟨[sample 10, sample 5]⟩ false 1 true = some [sample 10] ∧
    sample 10 ≠ sample 5 := by
  decide

/-- C4, amended: immediately after a successful `/submit` whose timestamp is
greater than every timestamp already stored, the read of the single most
recent entry returns exactly the entry just appended, which is the value the
cache holds. -/
theorem read_recent_after_newest_submit (atof64 : String → Scan) (s : State) (query : Values)
    (henc : (buildUpdate atof64 query).marshalable = true)
    (hnew : ∀ e ∈ s.db.records, e.Timestamp < (buildEntry atof64 query).Timestamp) :
    (submitHandler atof64 s query false).fatal = false ∧
    (submitHandler atof64 s query false).state.db.All false 1 true
      = some [buildEntry atof64 query] ∧
    (submitHandler atof64 s query false).state.lastDatabaseAddition
      = buildEntry atof64 query := by
  rw [submitHandler_saved atof64 s query henc]
  refine ⟨rfl, ?_, rfl⟩
  rw [DB_All_reverse _ 1 (by norm_num)]
  exact congrArg some (descending_append_newest s.db _ hnew)

/-- C4, amended, at a stored timestamp 10 and a submitted timestamp 11. -/
theorem read_recent_after_newest_submit_witness :
    (submitHandler (fun _ => Scan.malformed) ⟨⟨[sample 10]⟩, sample 10⟩
      (single "timestamp" "11") false).fatal = false ∧
    (submitHandler (fun _ => Scan.malformed) ⟨⟨[sample 10]⟩, sample 10⟩
      (single "timestamp" "11") false).state.db.All false 1 true
      = some [buildEntry (fun _ => Scan.malformed) (single "timestamp" "11")] ∧
    (submitHandler (fun _ => Scan.malformed) ⟨⟨[sample 10]⟩, sample 10⟩
      (single "timestamp" "11") false).state.lastDatabaseAddition
      = buildEntry (fun _ => Scan.malformed) (single "timestamp" "11") :=
  read_recent_after_newest_submit (fun _ => Scan.malformed) ⟨⟨[sample 10]⟩, sample 10⟩
    (single "timestamp" "11") (by decide) (by decide)

theorem ingestAll_records (atof64 : String → Scan) (queries : List Values) :
    ∀ (s s' : State), ingestAll atof64 s queries = some s' →
      s'.db.records = s.db.records ++ queries.map (buildEntry atof64) ∧
      (∀ q ∈ queries, (buildUpdate atof64 q).marshalable = true) := by
  induction queries with
  | nil =>
    intro s s' h
    simp only [ingestAll, Option.some.injEq] at h
    subst h
    simp
  | cons q qs ih =>
    intro s s' h
    unfold ingestAll at h
    simp only at h
    cases hf : (submitHandler atof64 s q false).fatal with
    | true => rw [hf] at h; simp at h
    | false =>
      rw [hf] at h
      simp only [Bool.false_eq_true, if_false] at h
      have henc := ((submitHandler_fatal_iff atof64 s q false).mp hf).1
      rw [submitHandler_saved atof64 s q henc] at h
      have := ih _ _ h
      refine ⟨?_, ?_⟩
      · rw [this.1]; simp
      · intro q' hq'
        rcases List.mem_cons.mp hq' with h1 | h1
        · rw [h1]; exact henc
        · exact this.2 q' h1

/-- C5: evaluated on a restart after one ingestion. The `/submit` of timestamp
7 into an empty store is accepted and leaves that entry in the store and in
the cache; `Listen` on the persisted store is not fatal and leaves the
zero-value entry in the cache, which is not the accepted entry. -/
theorem restart_loses_last_accepted :
    ingestAll (fun _ => Scan.malformed) ⟨⟨[]⟩, Entry.zero⟩ [single "timestamp" "7"]
      = some ⟨⟨[sample 7]⟩, sample 7⟩ ∧
    DB.AllTo ⟨[sample 7]⟩ false .array 1 true = none ∧
    (Listen ⟨[sample 7]⟩ false).fatal = false ∧
    (Listen ⟨[sample 7]⟩ false).state = ⟨⟨[sample 7]⟩, Entry.zero⟩ ∧
    Entry.zero ≠ sample 7 := by
  decide

/-- C7, as the claim states it, fails: with an entry of timestamp 9 stored, two
ingestions of timestamp 5 with different speeds are both stored, and the
retrieval with `count=2` returns the entry of timestamp 9 and the second of
the two, not the first. -/
theorem same_timestamp_not_both_returned :
    ingestAll (fun t => if t = "1" then Scan.ok ⟨0x3FF0000000000000⟩ else Scan.malformed)
      ⟨⟨[sample 9]⟩, sample 9⟩ [tsSpeed "5" "fast", tsSpeed "5" "1"]
      = some ⟨⟨[sample 9, sample 5, ⟨5, ⟨⟨0⟩, ⟨0⟩, 5, ⟨0⟩, ⟨0⟩, ⟨0x3FF0000000000000⟩⟩⟩]⟩,
          ⟨5, ⟨⟨0⟩, ⟨0⟩, 5, ⟨0⟩, ⟨0⟩, ⟨0x3FF0000000000000⟩⟩⟩⟩ ∧
    resolveCount (single "count" "2") = 2 ∧
    (retrieveHandler
        ⟨⟨[sample 9, sample 5, ⟨5, ⟨⟨0⟩, ⟨0⟩, 5, ⟨0⟩, ⟨0⟩, ⟨0x3FF0000000000000⟩⟩⟩]⟩,
          ⟨5, ⟨⟨0⟩, ⟨0⟩, 5, ⟨0⟩, ⟨0⟩, ⟨0x3FF0000000000000⟩⟩⟩⟩ (single "count" "2") false).body
      = some (.array [sample 9, ⟨5, ⟨⟨0⟩, ⟨0⟩, 5, ⟨0⟩, ⟨0⟩, ⟨0x3FF0000000000000⟩⟩⟩]) ∧
    sample 5 ∉ [sample 9, ⟨5, ⟨⟨0⟩, ⟨0⟩, 5, ⟨0⟩, ⟨0⟩, ⟨0x3FF0000000000000⟩⟩⟩] := by
  decide

/-- C7, amended: a successful `/submit` appends exactly its entry after the stored ones,
which stay as they were, whatever the timestamps; two successful ingestions of
the same timestamp leave both entries in the store, and a retrieval returns
both whenever its count is at least 2 plus the number of entries stored before
that are not older: with every count of at least 2 when those are all older
or the store was empty. -/
theorem store_is_append_only (atof64 : String → Scan) (s : State) (q₁ q₂ : Values) :
    (∀ ioErr, (submitHandler atof64 s q₁ ioErr).fatal = false →
      (submitHandler atof64 s q₁ ioErr).state.db.records
        = s.db.records ++ [buildEntry atof64 q₁]) ∧
    (∀ s₂, ingestAll atof64 s [q₁, q₂] = some s₂ →
      s₂.db.records = s.db.records ++ [buildEntry atof64 q₁, buildEntry atof64 q₂] ∧
      (∀ query : Values,
        (buildEntry atof64 q₁).Timestamp = (buildEntry atof64 q₂).Timestamp →
        (∀ e ∈ s.db.records, e.marshalable = true) →
        s.db.records.countP
            (fun e => decide ((buildEntry atof64 q₁).Timestamp ≤ e.Timestamp)) + 2
          ≤ resolveCount query →
        ∃ es : List Entry,
          retrieveHandler s₂ query false =
            ⟨s₂, [.All (resolveCount query) true], some (.array es), false⟩ ∧
          buildEntry atof64 q₁ ∈ es ∧ buildEntry atof64 q₂ ∈ es) ∧
      ((∀ e ∈ s.db.records, e.Timestamp < (buildEntry atof64 q₁).Timestamp) →
        s.db.records.countP
          (fun e => decide ((buildEntry atof64 q₁).Timestamp ≤ e.Timestamp)) = 0)) := by
  constructor
  · intro ioErr hf
    have h := (submitHandler_fatal_iff atof64 s q₁ ioErr).mp hf
    rw [h.2, submitHandler_saved atof64 s q₁ h.1]
  · intro s₂ hrun
    have hrec := ingestAll_records atof64 [q₁, q₂] s s₂ hrun
    have hrecs : s₂.db.records
        = s.db.records ++ [buildEntry atof64 q₁, buildEntry atof64 q₂] := by
      rw [hrec.1]; rfl
    refine ⟨hrecs, ?_, ?_⟩
    · intro query hts hold hcnt
      have henc : ∀ e ∈ s₂.db.records, e.marshalable = true := by
        intro e he
        rw [hrecs] at he
        rcases List.mem_append.mp he with h | h
        · exact hold e h
        · simp only [List.mem_cons, List.mem_singleton, List.not_mem_nil, or_false] at h
          rcases h with h | h
          · rw [h]; exact hrec.2 q₁ (by simp)
          · rw [h]; exact hrec.2 q₂ (by simp)
      have hcount : ∀ x : Entry, x.Timestamp = (buildEntry atof64 q₁).Timestamp →
          s₂.db.records.countP (fun e => decide (x.Timestamp ≤ e.Timestamp))
            ≤ resolveCount query := by
        intro x hx
        rw [hrecs, List.countP_append, hx]
        have h2 := List.countP_le_length
          (fun e => decide ((buildEntry atof64 q₁).Timestamp ≤ e.Timestamp))
          (l := [buildEntry atof64 q₁, buildEntry atof64 q₂])
        simp only [List.length_cons, List.length_nil] at h2
        omega
      refine ⟨s₂.db.descending.take (resolveCount query),
        retrieveHandler_store_path s₂ query (by omega) henc, ?_, ?_⟩
      · exact mem_take_descending s₂.db _ _ (by rw [hrecs]; simp) (hcount _ rfl)
      · exact mem_take_descending s₂.db _ _ (by rw [hrecs]; simp) (hcount _ hts.symm)
    · intro hold
      rw [List.countP_eq_zero]
      intro e he
      have := hold e he
      simp only [decide_eq_true_eq]
      omega

/-! ## The provenance of the cached entry -/

theorem retrieveHandler_state (s : State) (query : Values) (ioErr : Bool) :
    (retrieveHandler s query ioErr).state = s := by
  unfold retrieveHandler
  simp only
  split
  · split <;> rfl
  · split <;> rfl

/-- In every state a serving process reaches, the cached entry is
JSON-encodable. -/
theorem reachable_marshalable (atof64 : String → Scan) (db₀ : DB) (seedErr : Bool) (s : State)
    (h : Reachable atof64 db₀ seedErr s) : s.lastDatabaseAddition.marshalable = true := by
  induction h with
  | boot _ =>
    rw [Listen_eq]
    exact Entry_zero_marshalable
  | retrieve s query ioErr _ _ ih =>
    rw [retrieveHandler_state]
    exact ih
  | submit s query ioErr _ hf _ =>
    have h := (submitHandler_fatal_iff atof64 s query ioErr).mp hf
    rw [h.2, submitHandler_saved atof64 s query h.1]
    exact h.1

/-- In every state a serving process reaches, the cached entry is an entry of
the store or the zero value: `/submit` assigns the cache only after the save
and `/retrieve` assigns nothing. -/
theorem cache_is_stored_or_zero (atof64 : String → Scan) (db₀ : DB) (seedErr : Bool)
    (s : State) (h : Reachable atof64 db₀ seedErr s) :
    s.lastDatabaseAddition ∈ s.db.records ∨ s.lastDatabaseAddition = Entry.zero := by
  induction h with
  | boot _ =>
    rw [Listen_eq]
    right; rfl
  | retrieve s query ioErr _ _ ih =>
    rw [retrieveHandler_state]
    exact ih
  | submit s query ioErr _ hf _ =>
    have h := (submitHandler_fatal_iff atof64 s query ioErr).mp hf
    rw [h.2, submitHandler_saved atof64 s query h.1]
    left
    simp

/-- C9: evaluated on a failing seeding read. With one entry stored and the
startup read failing, the process reaches a serving state whose cache holds
the zero-value entry, which is not in the store although the store is not
empty; `/retrieve` then answers with that entry. -/
theorem cache_provenance_broken_by_failed_seed (atof64 : String → Scan) :
    Reachable atof64 ⟨[sample 7]⟩ true ⟨⟨[sample 7]⟩, Entry.zero⟩ ∧
    Entry.zero ∉ (DB.mk [sample 7]).records ∧
    (DB.mk [sample 7]).records ≠ [] ∧
    (retrieveHandler ⟨⟨[sample 7]⟩, Entry.zero⟩ (single "count" "1") false).body
      = some (.array [Entry.zero]) := by
  refine ⟨?_, by decide, by decide, by decide⟩
  exact @Reachable.boot atof64 ⟨[sample 7]⟩ true (by decide)

/-! ## Evaluations -/

theorem resolveCount_examples :
    resolveCount (single "count" "65535") = 65535 ∧
    resolveCount (single "count" "65536") = 1 ∧
    resolveCount (single "count" "00002") = 2 ∧
    resolveCount (single "count" "+5") = 1 ∧
    resolveCount (single "count" "0x10") = 1 ∧
    resolveCount (single "count" "") = 1 ∧
    resolveCount (single "other" "7") = 1 := by
  decide

/-- The leniency scenario of the specification: a `/submit` with a numeric
timestamp and a non-numeric speed is ingested, with speed 0. -/
theorem submit_non_numeric_speed :
    submitHandler (fun _ => Scan.malformed) ⟨⟨[]⟩, Entry.zero⟩ (tsSpeed "5" "fast") false =
      ⟨⟨⟨[sample 5]⟩, sample 5⟩, [.Save (sample 5)], none, false⟩ ∧
    (sample 5).Data.Speed = ⟨0⟩ := by
  decide

/-- A float text that is too large: with a scanner that reports the overflow
of `1e400`, the `/submit` ends in `log.Fatal` and nothing is saved. -/
theorem submit_overflowing_speed_is_fatal :
    submitHandler (fun t => if t = "1e400" then Scan.overflow false else Scan.malformed)
      ⟨⟨[]⟩, Entry.zero⟩ (tsSpeed "5" "1e400") false =
      ⟨⟨⟨[]⟩, Entry.zero⟩, [], none, true⟩ := by
  decide

/-- Two ingestions of the same timestamp with different payloads into an empty
store: both entries are stored and `count=2` returns both. -/
theorem same_timestamp_both_returned :
    ingestAll (fun t => if t = "1" then Scan.ok ⟨0x3FF0000000000000⟩ else Scan.malformed)
      ⟨⟨[]⟩, Entry.zero⟩ [tsSpeed "5" "fast", tsSpeed "5" "1"]
      = some ⟨⟨[sample 5, ⟨5, ⟨⟨0⟩, ⟨0⟩, 5, ⟨0⟩, ⟨0⟩, ⟨0x3FF0000000000000⟩⟩⟩]⟩,
          ⟨5, ⟨⟨0⟩, ⟨0⟩, 5, ⟨0⟩, ⟨0⟩, ⟨0x3FF0000000000000⟩⟩⟩⟩ ∧
    (retrieveHandler ⟨⟨[sample 5, ⟨5, ⟨⟨0⟩, ⟨0⟩, 5, ⟨0⟩, ⟨0⟩, ⟨0x3FF0000000000000⟩⟩⟩]⟩,
        ⟨5, ⟨⟨0⟩, ⟨0⟩, 5, ⟨0⟩, ⟨0⟩, ⟨0x3FF0000000000000⟩⟩⟩⟩ (single "count" "2") false).body
      = some (.array [⟨5, ⟨⟨0⟩, ⟨0⟩, 5, ⟨0⟩, ⟨0⟩, ⟨0x3FF0000000000000⟩⟩⟩, sample 5]) := by
  decide

end Server
